import Mathlib

/-!
Verification of the explanation-tracking dataflow library.

The Rust library wraps differential-dataflow collections in a `Variable`
("Explained Collection") carrying three streams (`stream`, `working`,
`depends`) and wires demand back-propagation through each combinator
(`concat`, `except`, `enter`, `enter_at`, `join_u`, `map_inverse`, the
`min!`, `except!`, `leave!`, `lift!` macros), plus a `MonotonicVariable`
accumulator whose destructor thresholds multiplicities into the loop
feedback, and a demand-correction loop that semijoins the demand ("needs")
streams against the actual inputs to produce `must` sets.

We embed the library shallowly:

* a differential collection is a list of weighted deltas (`Coll`), its
  semantics the net accumulated weight per record (`netWeight`); where only
  multiplicities matter we use multiplicity functions (`MColl`);
* each combinator's demand wiring is translated directly from the body of
  the corresponding Rust function or macro in `src/lib.rs`.
-/

namespace Explanation

/-- A differential collection of records of type `A`, as a list of weighted
deltas: each entry pairs a record with a signed integer multiplicity.  When a
record carries its logical timestamp as data (as in the `lift!` macro) the
timestamp is part of `A`. -/
abbrev Coll (A : Type) := List (A × Int)

/-- A collection viewed only through its accumulated multiplicities. -/
abbrev MColl (A : Type) := A → Int

/-- Net accumulated weight of record `a` in the delta list `c`. -/
def netWeight {A : Type} [DecidableEq A] (c : Coll A) (a : A) : Int :=
  ((c.filter (fun p => decide (p.1 = a))).map (fun p => p.2)).sum

/-- The `consolidate` operator of the underlying engine: sum the weights of
all deltas for each record, dropping records whose net weight is zero.  Each
surviving record appears exactly once. -/
def consolidate {A : Type} [DecidableEq A] (c : Coll A) : Coll A :=
  ((c.map Prod.fst).dedup).filterMap (fun a =>
    if netWeight c a = 0 then none else some (a, netWeight c a))

/-- The `lift!` macro (src/lib.rs lines 76-93): consolidate the input, then
emit each surviving delta's record (paired with its timestamp, which is part
of `A` here) with weight `+1`, discarding the delta's weight. -/
def lift {A : Type} [DecidableEq A] (c : Coll A) : Coll A :=
  (consolidate c).map (fun p => (p.1, 1))

lemma netWeight_eq_zero_of_not_mem {A : Type} [DecidableEq A] {c : Coll A} {a : A}
    (h : a ∉ c.map Prod.fst) : netWeight c a = 0 := by
  unfold netWeight
  have hnil : c.filter (fun p => decide (p.1 = a)) = [] := by
    rw [List.filter_eq_nil_iff]
    intro p hp hpa
    rw [decide_eq_true_eq] at hpa
    exact h (hpa ▸ List.mem_map_of_mem Prod.fst hp)
  rw [hnil]
  rfl

lemma mem_consolidate {A : Type} [DecidableEq A] {c : Coll A} {a : A} {w : Int} :
    (a, w) ∈ consolidate c ↔ w = netWeight c a ∧ w ≠ 0 := by
  unfold consolidate
  rw [List.mem_filterMap]
  constructor
  · rintro ⟨a', _ha', hf⟩
    by_cases h0 : netWeight c a' = 0
    · simp [h0] at hf
    · simp only [h0, if_false, Option.some.injEq, Prod.mk.injEq] at hf
      rcases hf with ⟨rfl, rfl⟩
      exact ⟨rfl, h0⟩
  · rintro ⟨rfl, h0⟩
    refine ⟨a, ?_, ?_⟩
    · rw [List.mem_dedup]
      by_contra hmem
      exact h0 (netWeight_eq_zero_of_not_mem hmem)
    · simp [h0]

lemma mem_lift {A : Type} [DecidableEq A] {c : Coll A} {a : A} :
    (a, (1 : Int)) ∈ lift c ↔ netWeight c a ≠ 0 := by
  unfold lift
  rw [List.mem_map]
  constructor
  · rintro ⟨⟨a', w'⟩, hmem, heq⟩
    simp only [Prod.mk.injEq] at heq
    rcases heq with ⟨rfl, -⟩
    have h := mem_consolidate.mp hmem
    rw [← h.1]
    exact h.2
  · intro h
    exact ⟨(a, netWeight c a), mem_consolidate.mpr ⟨rfl, h⟩, rfl⟩

lemma lift_weights {A : Type} [DecidableEq A] {c : Coll A} :
    ∀ p ∈ lift c, p.2 = 1 := by
  intro p hp
  unfold lift at hp
  rw [List.mem_map] at hp
  rcases hp with ⟨q, -, rfl⟩
  rfl

lemma nodup_consolidate {A : Type} [DecidableEq A] (c : Coll A) :
    (consolidate c).Nodup := by
  unfold consolidate
  apply List.Nodup.filterMap
  · intro a a' b hb hb'
    by_cases h0 : netWeight c a = 0
    · simp [h0] at hb
    · by_cases h0' : netWeight c a' = 0
      · simp [h0'] at hb'
      · simp only [h0, h0', if_false, Option.mem_def, Option.some.injEq] at hb hb'
        have h1 : a = b.1 := congrArg Prod.fst hb
        have h2 : a' = b.1 := congrArg Prod.fst hb'
        exact h1.trans h2.symm
  · exact List.nodup_dedup _

lemma nodup_lift {A : Type} [DecidableEq A] (c : Coll A) :
    (lift c).Nodup := by
  unfold lift
  apply List.Nodup.map_on
  · intro x hx y hy hxy
    have hx' := mem_consolidate (c := c) (a := x.1) (w := x.2) |>.mp (by simpa using hx)
    have hy' := mem_consolidate (c := c) (a := y.1) (w := y.2) |>.mp (by simpa using hy)
    simp only [Prod.mk.injEq, and_true] at hxy
    have h2 : x.2 = y.2 := by rw [hx'.1, hy'.1, hxy]
    exact Prod.ext hxy h2
  · exact nodup_consolidate c

/-- The threshold applied in `MonotonicVariable::drop` (src/lib.rs 317-325):
`threshold(|_, w| if w > 0 { 1 } else { 0 })` — every record with positive
multiplicity contributes multiplicity 1, every other record contributes 0. -/
def threshold {A : Type} (c : MColl A) : MColl A :=
  fun a => if 0 < c a then 1 else 0

/-- The engine's `semijoin`: output multiplicity at a record is the product of
the two input multiplicities.  Used by the correction loop to intersect the
needs streams with the actual inputs (examples/cc.rs 146-147,
examples/interactive-stable.rs 122). -/
def semijoin {A : Type} (c I : MColl A) : MColl A :=
  fun a => c a * I a

/-- `MonotonicVariable::add` (src/lib.rs 308-311): concatenation of the new
source onto `current`, with no deduplication. -/
def monotonicAdd {A : Type} (cur source : MColl A) : MColl A :=
  fun a => cur a + source a

/-- The per-epoch correction rounds of a `must` accumulator: the cycle starts
empty; the cycle of round `i+1` is the `drop`-threshold of round `i`'s
`current`, which is the cycle plus the semijoined needs of round `i`
(`must.add(needs.map(..).semijoin(&input).map(..))` in the examples, closed by
`MonotonicVariable::drop`). -/
def mustRounds {A : Type} (I : MColl A) (needs : Nat → MColl A) : Nat → MColl A
  | 0 => fun _ => 0
  | i + 1 => threshold (monotonicAdd (mustRounds I needs i) (semijoin (needs i) I))

/-- Least element of a list, if any; mirrors the value ordering in which the
engine's `group_u` presents values to its logic closure. -/
def listMin {V : Type} [LinearOrder V] : List V → Option V
  | [] => none
  | v :: vs =>
    match listMin vs with
    | none => some v
    | some m => some (min v m)

/-- The distinct keys occurring in a keyed delta list. -/
def keysOf {K V : Type} [DecidableEq K] (c : Coll (K × V)) : List K :=
  (c.map (fun p => p.1.1)).dedup

/-- The distinct values present (positive net multiplicity) under key `k`. -/
def presentVals {K V : Type} [DecidableEq K] [DecidableEq V]
    (c : Coll (K × V)) (k : K) : List V :=
  ((c.map Prod.fst).dedup).filterMap (fun kv =>
    if kv.1 = k ∧ 0 < netWeight c kv then some kv.2 else none)

/-- The engine's `group_u` applied with the logic of the `min!` macro
(src/lib.rs 213-214): for each key, the value-ordered iterator's first entry —
the least value present — is emitted with weight 1. -/
def group_u {K V : Type} [DecidableEq K] [DecidableEq V] [LinearOrder V]
    (c : Coll (K × V)) : Coll (K × V) :=
  (keysOf c).filterMap (fun k =>
    (listMin (presentVals c k)).map (fun v => ((k, v), 1)))

/-- The `stream` (resp. `working`) of the variable built by the `min!` macro
(src/lib.rs 217-221): the per-key `group_u` minimum, mapped through the
caller-supplied extractor `(k, v) ↦ (k, ρ(v))`. -/
def grouped_min_stream {K V L : Type} [DecidableEq K] [DecidableEq V] [LinearOrder V]
    (ρ : V → L) (c : Coll (K × V)) : Coll (K × L) :=
  (group_u c).map (fun p => ((p.1.1, ρ p.1.2), p.2))

lemma listMin_eq_none {V : Type} [LinearOrder V] {l : List V} :
    listMin l = none ↔ l = [] := by
  cases l with
  | nil => simp [listMin]
  | cons v vs =>
    simp only [listMin]
    cases listMin vs <;> simp

lemma listMin_mem {V : Type} [LinearOrder V] {l : List V} {m : V}
    (h : listMin l = some m) : m ∈ l := by
  induction l generalizing m with
  | nil => simp [listMin] at h
  | cons v vs ih =>
    rw [listMin] at h
    rcases hvs : listMin vs with - | m'
    · rw [hvs] at h
      simp only [Option.some.injEq] at h
      simp [← h]
    · rw [hvs] at h
      simp only [Option.some.injEq] at h
      rcases min_cases v m' with ⟨heq, -⟩ | ⟨heq, -⟩
      · simp [← h, heq]
      · right
        rw [← h, heq]
        exact ih hvs

lemma listMin_le {V : Type} [LinearOrder V] {l : List V} {m : V}
    (h : listMin l = some m) : ∀ x ∈ l, m ≤ x := by
  induction l generalizing m with
  | nil => simp
  | cons v vs ih =>
    rw [listMin] at h
    rcases hvs : listMin vs with - | m'
    · rw [hvs] at h
      simp only [Option.some.injEq] at h
      rw [listMin_eq_none.mp hvs]
      simp [← h]
    · rw [hvs] at h
      simp only [Option.some.injEq] at h
      intro x hx
      rcases List.mem_cons.mp hx with rfl | hx'
      · rw [← h]; exact min_le_left _ _
      · rw [← h]
        exact le_trans (min_le_right _ _) (ih hvs x hx')

lemma listMin_isSome {V : Type} [LinearOrder V] {l : List V} (h : l ≠ []) :
    ∃ m, listMin l = some m := by
  rcases hl : listMin l with - | m
  · exact absurd (listMin_eq_none.mp hl) h
  · exact ⟨m, rfl⟩

lemma mem_presentVals {K V : Type} [DecidableEq K] [DecidableEq V]
    {c : Coll (K × V)} {k : K} {v : V} :
    v ∈ presentVals c k ↔ ((k, v) ∈ c.map Prod.fst ∧ 0 < netWeight c (k, v)) := by
  unfold presentVals
  rw [List.mem_filterMap]
  constructor
  · rintro ⟨kv, hkv, hf⟩
    by_cases hc : kv.1 = k ∧ 0 < netWeight c kv
    · rw [if_pos hc] at hf
      simp only [Option.some.injEq] at hf
      have hkv' : kv = (k, v) := Prod.ext hc.1 hf
      rw [hkv'] at hkv hc
      exact ⟨List.mem_dedup.mp hkv, hc.2⟩
    · rw [if_neg hc] at hf
      cases hf
  · rintro ⟨hmem, hpos⟩
    refine ⟨(k, v), List.mem_dedup.mpr hmem, ?_⟩
    rw [if_pos ⟨rfl, hpos⟩]

lemma mem_keysOf_of_presentVals {K V : Type} [DecidableEq K] [DecidableEq V]
    {c : Coll (K × V)} {k : K} (h : presentVals c k ≠ []) : k ∈ keysOf c := by
  rcases List.exists_mem_of_ne_nil _ h with ⟨v, hv⟩
  have := (mem_presentVals.mp hv).1
  rw [List.mem_map] at this
  rcases this with ⟨p, hp, hpk⟩
  unfold keysOf
  rw [List.mem_dedup, List.mem_map]
  exact ⟨p, hp, congrArg Prod.fst hpk⟩

lemma mem_group_u {K V : Type} [DecidableEq K] [DecidableEq V] [LinearOrder V]
    {c : Coll (K × V)} {p : (K × V) × Int} :
    p ∈ group_u c ↔ ∃ k, k ∈ keysOf c ∧ ∃ v, listMin (presentVals c k) = some v ∧
      p = ((k, v), 1) := by
  unfold group_u
  rw [List.mem_filterMap]
  constructor
  · rintro ⟨k, hk, hf⟩
    rcases hm : listMin (presentVals c k) with - | v
    · rw [hm] at hf
      cases hf
    · rw [hm] at hf
      simp only [Option.map_some', Option.some.injEq] at hf
      exact ⟨k, hk, v, hm, hf.symm⟩
  · rintro ⟨k, hk, v, hm, rfl⟩
    exact ⟨k, hk, by rw [hm]; rfl⟩

/-- C1 (amended): for a value extractor `ρ` that is monotone with respect to
the ordering on `V` (as in both uses in the source: the first lexicographic
component `|(l,_)| l` and the identity `|x| x`), `min!` produces for each key
present in the input the record whose `ρ(v)` is minimum, the tie (and the
choice of the underlying record) broken by the lex-min over `V`; its stream —
and, by the same computation, its working — equals the per-key minimum of its
input under `ρ`.  The same statement for an arbitrary `ρ` is refuted by
`grouped_min_lexmin_not_rho_min`. -/
theorem grouped_min_stream_correct {K V L : Type} [DecidableEq K] [DecidableEq V]
    [LinearOrder V] [LinearOrder L]
    (ρ : V → L) (hmono : ∀ v w : V, v ≤ w → ρ v ≤ ρ w)
    (c : Coll (K × V)) (k : K) (hk : presentVals c k ≠ []) :
    ∃ v0, v0 ∈ presentVals c k ∧
      (∀ v ∈ presentVals c k, v0 ≤ v) ∧
      (∀ v ∈ presentVals c k, ρ v0 ≤ ρ v) ∧
      ((k, v0), (1 : Int)) ∈ group_u c ∧
      ((k, ρ v0), (1 : Int)) ∈ grouped_min_stream ρ c ∧
      (∀ p ∈ grouped_min_stream ρ c, p.1.1 = k → p = ((k, ρ v0), 1)) := by
  rcases listMin_isSome hk with ⟨m, hm⟩
  have hmem_gu : ((k, m), (1 : Int)) ∈ group_u c :=
    mem_group_u.mpr ⟨k, mem_keysOf_of_presentVals hk, m, hm, rfl⟩
  refine ⟨m, listMin_mem hm, listMin_le hm, ?_, hmem_gu, ?_, ?_⟩
  · intro v hv
    exact hmono m v (listMin_le hm v hv)
  · unfold grouped_min_stream
    rw [List.mem_map]
    exact ⟨((k, m), 1), hmem_gu, rfl⟩
  · intro p hp hpk
    unfold grouped_min_stream at hp
    rw [List.mem_map] at hp
    rcases hp with ⟨q, hq, rfl⟩
    rcases mem_group_u.mp hq with ⟨k', -, v', hm', rfl⟩
    have hkk : k' = k := hpk
    rw [hkk] at hm' ⊢
    rw [hm] at hm'
    simp only [Option.some.injEq] at hm'
    rw [hm']

/-- Concrete input refuting C1 as stated: two records under key 0. -/
def c1Coll : Coll (Nat × Nat) := [((0, 0), 1), ((0, 1), 1)]

/-- A non-monotone value extractor. -/
def c1Rho : Nat → Int := fun v => -(v : Int)

/-- C1 counterexample: with the caller-supplied extractor `ρ(v) = -v` on input
`{(0,0), (0,1)}`, the per-key minimum of the input under `ρ` is `-1` (attained
by the record `(0,1)`), but `min!` emits `((0, 0), 1)` — the lex-min record
over `V` with `ρ` applied — and no record `(0, -1)` at all: the stream is not
the per-key minimum under `ρ`, so the claim fails for this `ρ`. -/
theorem grouped_min_lexmin_not_rho_min :
    grouped_min_stream c1Rho c1Coll = [((0, 0), 1)] ∧
    listMin ((presentVals c1Coll 0).map c1Rho) = some (-1) ∧
    ((0, (-1 : Int)), (1 : Int)) ∉ grouped_min_stream c1Rho c1Coll := by
  refine ⟨by decide, by decide, by decide⟩

/-- Witness for `grouped_min_stream_correct` at `ρ = id` on `{(0,2),(0,1)}`. -/
theorem grouped_min_stream_correct_witness :
    (presentVals ([((0, 2), 1), ((0, 1), 1)] : Coll (Nat × Nat)) 0 ≠ []) ∧
    (∃ v0, v0 ∈ presentVals ([((0, 2), 1), ((0, 1), 1)] : Coll (Nat × Nat)) 0 ∧
      (∀ v ∈ presentVals ([((0, 2), 1), ((0, 1), 1)] : Coll (Nat × Nat)) 0, v0 ≤ v) ∧
      (∀ v ∈ presentVals ([((0, 2), 1), ((0, 1), 1)] : Coll (Nat × Nat)) 0,
        (fun v : Nat => v) v0 ≤ (fun v : Nat => v) v) ∧
      ((0, v0), (1 : Int)) ∈ group_u ([((0, 2), 1), ((0, 1), 1)] : Coll (Nat × Nat)) ∧
      ((0, (fun v : Nat => v) v0), (1 : Int)) ∈
        grouped_min_stream (fun v : Nat => v) ([((0, 2), 1), ((0, 1), 1)] : Coll (Nat × Nat)) ∧
      (∀ p ∈ grouped_min_stream (fun v : Nat => v)
          ([((0, 2), 1), ((0, 1), 1)] : Coll (Nat × Nat)),
        p.1.1 = 0 → p = ((0, (fun v : Nat => v) v0), 1))) :=
  ⟨by decide,
   grouped_min_stream_correct (fun v : Nat => v) (fun _ _ h => h)
     ([((0, 2), 1), ((0, 1), 1)] : Coll (Nat × Nat)) 0 (by decide)⟩

/-- The engine's `join_u` on delta lists: for each pair of deltas agreeing on
the key, emit the key with both values and the product of the weights. -/
def join_u {K A B : Type} [DecidableEq K] (a : Coll (K × A)) (b : Coll (K × B)) :
    Coll (K × A × B) :=
  a.bind (fun p => (b.filter (fun r => decide (r.1.1 = p.1.1))).map
    (fun r => ((p.1.1, p.1.2, r.1.2), p.2 * r.2)))

/-- The `temp` collection of the `min!` macro (src/lib.rs 224): the lifted
history of `min1.concat(&min2)` — each `((k,v),t)` delta of the minimums with
nonzero consolidated weight becomes a data record of weight 1 — reshaped by
`|((x,val),t)| (x,(val,t))`.  The intervening `leave`/`enter` only move the
record between scopes and leave the data unchanged. -/
def minTemp {K V T : Type} [DecidableEq K] [DecidableEq V] [DecidableEq T]
    (hist : Coll ((K × V) × T)) : Coll (K × V × T) :=
  (lift hist).map (fun p => ((p.1.1.1, p.1.1.2, p.1.2), p.2))

/-- The demand back-propagation of the `min!` macro (src/lib.rs 230-235):
(i) join incoming demands `(k, l*, t*, q)` against the lifted minimums
history by key, (ii) keep only records with `t ≤ t*`, (iii) keep only records
with `ρ(v) ≤ l*`, then reformat to `(k, v, t, q)`.  The source's
`map(|(x,l,t,q)| (x,(l,t,q)))` on the demand side is the identity in our
tuple encoding. -/
def grouped_min_depends {K V T L : Type} [DecidableEq K] [DecidableEq V] [DecidableEq T]
    [LinearOrder T] [LinearOrder L]
    (ρ : V → L) (hist : Coll ((K × V) × T)) (dem : Coll (K × L × T × Nat)) :
    Coll (K × V × T × Nat) :=
  (((join_u (minTemp hist) dem).filter
      (fun ((_, (_, t1), (_, t2, _)), _) => decide (t1 ≤ t2))).filter
      (fun ((_, (v, _), (l2, _, _)), _) => decide (ρ v ≤ l2))).map
      (fun ((k, (v, t), (_, _, q)), w) => ((k, v, t, q), w))

lemma mem_join_u_singleton {K A B : Type} [DecidableEq K] {a : Coll (K × A)}
    {k0 : K} {b0 : B} {w0 : Int} {x : (K × A × B) × Int} :
    x ∈ join_u a [((k0, b0), w0)] ↔
      ∃ pa ∈ a, pa.1.1 = k0 ∧ x = ((k0, pa.1.2, b0), pa.2 * w0) := by
  unfold join_u
  rw [List.mem_bind]
  constructor
  · rintro ⟨p, hp, hx⟩
    rw [List.mem_map] at hx
    rcases hx with ⟨r, hr, rfl⟩
    rw [List.mem_filter] at hr
    rcases hr with ⟨hrmem, hrk⟩
    rw [List.mem_singleton] at hrmem
    subst hrmem
    have hk' : k0 = p.1.1 := of_decide_eq_true hrk
    subst hk'
    exact ⟨p, hp, rfl, rfl⟩
  · rintro ⟨p, hp, hk, rfl⟩
    refine ⟨p, hp, ?_⟩
    rw [List.mem_map]
    refine ⟨((k0, b0), w0), ?_, by rw [hk]⟩
    rw [List.mem_filter, List.mem_singleton]
    exact ⟨rfl, by rw [decide_eq_true_eq]; exact hk.symm⟩

lemma mem_minTemp {K V T : Type} [DecidableEq K] [DecidableEq V] [DecidableEq T]
    {hist : Coll ((K × V) × T)} {k : K} {v : V} {t : T} {w : Int} :
    ((k, v, t), w) ∈ minTemp hist ↔ (w = 1 ∧ netWeight hist ((k, v), t) ≠ 0) := by
  unfold minTemp
  rw [List.mem_map]
  constructor
  · rintro ⟨p, hp, heq⟩
    obtain ⟨⟨⟨pk, pv⟩, pt⟩, pw⟩ := p
    have hw : pw = 1 := lift_weights _ hp
    simp only [Prod.mk.injEq] at heq
    rcases heq with ⟨⟨rfl, rfl, rfl⟩, rfl⟩
    rw [hw] at hp
    exact ⟨hw, mem_lift.mp hp⟩
  · rintro ⟨rfl, hnz⟩
    exact ⟨(((k, v), t), 1), mem_lift.mpr hnz, rfl⟩

/-- C2: for a single demand `(k0, l*, t*, q0)` arriving at the output of
`min!`, the records added to the input's `depends` accumulator are exactly
the lifted records `(k, v, t)` of the minimums' history `min1 ∪ min2` (those
with nonzero consolidated weight) with `k = k0`, satisfying both `t ≤ t*`
and `ρ(v) ≤ l*` (where `l*` is the `ρ`-value of the demanded minimum), each
tagged with `q0` and carrying weight 1; in particular no record with
timestamp strictly greater than `t*` is ever added. -/
theorem grouped_min_depends_exact {K V T L : Type} [DecidableEq K] [DecidableEq V]
    [DecidableEq T] [LinearOrder T] [LinearOrder L]
    (ρ : V → L) (hist : Coll ((K × V) × T)) (k0 : K) (l0 : L) (t0 : T) (q0 : Nat)
    (k : K) (v : V) (t : T) (q : Nat) (w : Int) :
    ((k, v, t, q), w) ∈ grouped_min_depends ρ hist [((k0, l0, t0, q0), 1)] ↔
      (k = k0 ∧ q = q0 ∧ w = 1 ∧ netWeight hist ((k0, v), t) ≠ 0 ∧ t ≤ t0 ∧ ρ v ≤ l0) := by
  unfold grouped_min_depends
  rw [List.mem_map]
  constructor
  · rintro ⟨⟨⟨ky, ⟨vy, ty⟩, ⟨ly, t2y, qy⟩⟩, wy⟩, hy, heq⟩
    simp only [Prod.mk.injEq] at heq
    rcases heq with ⟨⟨rfl, rfl, rfl, rfl⟩, rfl⟩
    rw [List.mem_filter] at hy
    rcases hy with ⟨hy, hval⟩
    rw [List.mem_filter] at hy
    rcases hy with ⟨hy, htime⟩
    rw [decide_eq_true_eq] at hval htime
    rcases mem_join_u_singleton.mp hy with ⟨pa, hpa, hpak, heq2⟩
    obtain ⟨⟨pk, pv, pt⟩, pw⟩ := pa
    simp only [Prod.mk.injEq] at heq2
    rcases heq2 with ⟨⟨rfl, ⟨rfl, rfl⟩, rfl, rfl, rfl⟩, rfl⟩
    rcases mem_minTemp.mp hpa with ⟨hw1, hnz⟩
    have hpak' : pk = ky := hpak
    subst hpak'
    exact ⟨rfl, rfl, by rw [hw1, one_mul], hnz, htime, hval⟩
  · rintro ⟨hk, hq, hw, hnz, htime, hval⟩
    subst hk
    subst hq
    subst hw
    refine ⟨((k, (v, t), (l0, t0, q)), 1), ?_, rfl⟩
    rw [List.mem_filter]
    refine ⟨?_, by rw [decide_eq_true_eq]; exact hval⟩
    rw [List.mem_filter]
    refine ⟨?_, by rw [decide_eq_true_eq]; exact htime⟩
    exact mem_join_u_singleton.mpr
      ⟨((k, v, t), 1), mem_minTemp.mpr ⟨rfl, hnz⟩, rfl, by rw [mul_one]⟩

/-- A demand stream: weighted deltas of demands `(k, v, t, q)`, `q` being the
32-bit query identifier. -/
abbrev DStream (K V T : Type) := Coll (K × V × T × Nat)

/-- The Explained Collection (`Variable`, src/lib.rs 41-54): the data stream
and working replay stream (as multiplicity functions) and the log of streams
added so far to its `depends` MonotonicVariable accumulator. -/
structure Variable (K V T : Type) where
  stream : MColl (K × V)
  working : MColl (K × V)
  dependsAdds : List (DStream K V T)

/-- `Variable::concat` (src/lib.rs 145-155): result stream and working are
the delta-concatenations of the inputs'; the stream of demands arriving at
the result's `depends` is added, unchanged, to the `depends` of both inputs.
`resultDepends` is that demand stream; returns `(result, self, other)` after
the wiring. -/
def Variable.concat {K V T : Type} (self other : Variable K V T)
    (resultDepends : DStream K V T) :
    Variable K V T × Variable K V T × Variable K V T :=
  (⟨fun r => self.stream r + other.stream r,
    fun r => self.working r + other.working r, []⟩,
   ⟨self.stream, self.working, self.dependsAdds ++ [resultDepends]⟩,
   ⟨other.stream, other.working, other.dependsAdds ++ [resultDepends]⟩)

/-- `Variable::except` (src/lib.rs 159-169) and the `except!` macro
(src/lib.rs 265-274): result = self ⊕ negate(other), and the demand wiring is
identical to `concat` — the output demand stream is added, unchanged, to the
`depends` of both inputs, including the negated one. -/
def Variable.except {K V T : Type} (self other : Variable K V T)
    (resultDepends : DStream K V T) :
    Variable K V T × Variable K V T × Variable K V T :=
  (⟨fun r => self.stream r + -other.stream r,
    fun r => self.working r + -other.working r, []⟩,
   ⟨self.stream, self.working, self.dependsAdds ++ [resultDepends]⟩,
   ⟨other.stream, other.working, other.dependsAdds ++ [resultDepends]⟩)

/-- Demand wiring of `Variable::enter` (src/lib.rs 172-176): the demands
arriving at the entered variable are mapped by `|(x,y,t,q)| (x,y,t.outer,q)`
before being added to the outer input's `depends`; a child-scope timestamp is
the product `(outer, inner)`. -/
def enter_depends {K V TO TI : Type} (rd : DStream K V (TO × TI)) : DStream K V TO :=
  rd.map (fun ((k, v, t, q), w) => ((k, v, t.1, q), w))

/-- Demand wiring of `Variable::enter_at` (src/lib.rs 179-194): identical to
`enter` (line 192 equals line 174). -/
def enter_at_depends {K V TO TI : Type} (rd : DStream K V (TO × TI)) : DStream K V TO :=
  rd.map (fun ((k, v, t, q), w) => ((k, v, t.1, q), w))

/-- Demand wiring of `Variable::join_u` toward `self` (src/lib.rs 113):
`|(x,(y,_),t,q)| (x,y,t,q)`. -/
def join_u_depends_self {K V1 V2 T : Type} (rd : DStream K (V1 × V2) T) : DStream K V1 T :=
  rd.map (fun ((k, v, t, q), w) => ((k, v.1, t, q), w))

/-- Demand wiring of `Variable::join_u` toward `other` (src/lib.rs 114):
`|(x,(_,z),t,q)| (x,z,t,q)`. -/
def join_u_depends_other {K V1 V2 T : Type} (rd : DStream K (V1 × V2) T) : DStream K V2 T :=
  rd.map (fun ((k, v, t, q), w) => ((k, v.2, t, q), w))

/-- Demand wiring of `VariableFeedback::set` (src/lib.rs 353-363), inlined
identically in the examples (examples/cc.rs 113-117): demands entering the
loop feedback are filtered to `t.inner > 0` and then mapped to
`(x, l, Product::new(t.outer, t.inner - 1), q)` before being added to the
loop source's `depends`. -/
def feedback_set_depends {K V TO : Type} (rd : DStream K V (TO × Nat)) :
    DStream K V (TO × Nat) :=
  (rd.filter (fun ((_, _, t, _), _) => decide (0 < t.2))).map
    (fun ((k, v, t, q), w) => ((k, v, (t.1, t.2 - 1), q), w))

/-- C5: for the `concat` combinator and for the `except` combinator (and the
`except!` macro) alike, the demand stream arriving at the combinator's output
is forwarded verbatim — the very same stream, so same key, value, timestamp
and query identifier for every demand — into the `depends` accumulators of
both inputs (for `except`, including the negated side), with no filtering or
transformation. -/
theorem concat_except_forward_verbatim {K V T : Type} (self other : Variable K V T)
    (rd : DStream K V T) :
    (Variable.concat self other rd).2.1.dependsAdds = self.dependsAdds ++ [rd] ∧
    (Variable.concat self other rd).2.2.dependsAdds = other.dependsAdds ++ [rd] ∧
    (Variable.except self other rd).2.1.dependsAdds = self.dependsAdds ++ [rd] ∧
    (Variable.except self other rd).2.2.dependsAdds = other.dependsAdds ++ [rd] :=
  ⟨rfl, rfl, rfl, rfl⟩

/-- C7: a demand `(k, v, (tOuter, tInner), q)` arriving at the output of
`enter` or `enter_at` is added to the outer input's `depends` as
`(k, v, tOuter, q)`: the inner coordinate is stripped and key, value, query
identifier and weight pass through unchanged. -/
theorem enter_strips_inner_time {K V TO TI : Type} (rd : DStream K V (TO × TI))
    (k : K) (v : V) (tOuter : TO) (q : Nat) (w : Int) :
    (((k, v, tOuter, q), w) ∈ enter_depends rd ↔
      ∃ tInner, ((k, v, (tOuter, tInner), q), w) ∈ rd) ∧
    (((k, v, tOuter, q), w) ∈ enter_at_depends rd ↔
      ∃ tInner, ((k, v, (tOuter, tInner), q), w) ∈ rd) := by
  have key : ∀ rs : DStream K V (TO × TI),
      (((k, v, tOuter, q), w) ∈
          rs.map (fun ((k, v, t, q), w) => ((k, v, t.1, q), w)) ↔
        ∃ tInner, ((k, v, (tOuter, tInner), q), w) ∈ rs) := by
    intro rs
    rw [List.mem_map]
    constructor
    · rintro ⟨⟨⟨pk, pv, ⟨pto, pti⟩, pq⟩, pw⟩, hp, heq⟩
      simp only [Prod.mk.injEq] at heq
      rcases heq with ⟨⟨rfl, rfl, rfl, rfl⟩, rfl⟩
      exact ⟨pti, hp⟩
    · rintro ⟨tInner, h⟩
      exact ⟨((k, v, (tOuter, tInner), q), w), h, rfl⟩
  exact ⟨key rd, key rd⟩

/-- C8: a demand `(k, (v1, v2), t, q)` arriving at the output of `join_u`
decomposes into exactly `(k, v1, t, q)` added to self's `depends` and exactly
`(k, v2, t, q)` added to other's `depends`; both sides receive a demand for
every output demand. -/
theorem join_u_backprop_exact {K V1 V2 T : Type} (rd : DStream K (V1 × V2) T)
    (k : K) (v1 : V1) (v2 : V2) (t : T) (q : Nat) (w : Int) :
    (((k, v1, t, q), w) ∈ join_u_depends_self rd ↔
      ∃ u2, ((k, (v1, u2), t, q), w) ∈ rd) ∧
    (((k, v2, t, q), w) ∈ join_u_depends_other rd ↔
      ∃ u1, ((k, (u1, v2), t, q), w) ∈ rd) ∧
    (((k, (v1, v2), t, q), w) ∈ rd →
      ((k, v1, t, q), w) ∈ join_u_depends_self rd ∧
      ((k, v2, t, q), w) ∈ join_u_depends_other rd) := by
  have hself : ((k, v1, t, q), w) ∈ join_u_depends_self rd ↔
      ∃ u2, ((k, (v1, u2), t, q), w) ∈ rd := by
    unfold join_u_depends_self
    rw [List.mem_map]
    constructor
    · rintro ⟨⟨⟨pk, ⟨pv1, pv2⟩, pt, pq⟩, pw⟩, hp, heq⟩
      simp only [Prod.mk.injEq] at heq
      rcases heq with ⟨⟨rfl, rfl, rfl, rfl⟩, rfl⟩
      exact ⟨pv2, hp⟩
    · rintro ⟨u2, h⟩
      exact ⟨((k, (v1, u2), t, q), w), h, rfl⟩
  have hother : ((k, v2, t, q), w) ∈ join_u_depends_other rd ↔
      ∃ u1, ((k, (u1, v2), t, q), w) ∈ rd := by
    unfold join_u_depends_other
    rw [List.mem_map]
    constructor
    · rintro ⟨⟨⟨pk, ⟨pv1, pv2⟩, pt, pq⟩, pw⟩, hp, heq⟩
      simp only [Prod.mk.injEq] at heq
      rcases heq with ⟨⟨rfl, rfl, rfl, rfl⟩, rfl⟩
      exact ⟨pv1, hp⟩
    · rintro ⟨u1, h⟩
      exact ⟨((k, (u1, v2), t, q), w), h, rfl⟩
  exact ⟨hself, hother, fun h => ⟨hself.mpr ⟨v2, h⟩, hother.mpr ⟨v1, h⟩⟩⟩

/-- C9 counterexample: the demand `(0, 0, (0, 0), 0)` (inner time 0) entering
the loop feedback is dropped by the `t.inner > 0` filter — nothing at all is
added to the loop source's `depends`, contradicting the claim that every
demand is decremented and fed to the previous iteration. -/
theorem feedback_set_drops_inner_zero :
    feedback_set_depends
      ([(((0 : Nat), (0 : Nat), ((0 : Nat), (0 : Nat)), (0 : Nat)), 1)] :
        DStream Nat Nat (Nat × Nat)) = [] := by
  decide

/-- C9 (amended): every demand with strictly positive inner time entering a
loop's demand feedback is decremented in inner time and fed to the previous
iteration — it is added to the loop source's `depends` at `(tOuter, tInner - 1)`
with key, value, query identifier and weight unchanged; demands with inner
time 0 are dropped by the `t.inner > 0` filter.  Equivalently: the fed-back
stream holds a demand at inner time `ti` exactly when that demand entered at
inner time `ti + 1`. -/
theorem feedback_set_decrements {K V TO : Type} (rd : DStream K V (TO × Nat))
    (k : K) (v : V) (tOuter : TO) (ti : Nat) (q : Nat) (w : Int) :
    ((k, v, (tOuter, ti), q), w) ∈ feedback_set_depends rd ↔
      ((k, v, (tOuter, ti + 1), q), w) ∈ rd := by
  unfold feedback_set_depends
  rw [List.mem_map]
  constructor
  · rintro ⟨⟨⟨pk, pv, ⟨pto, pti⟩, pq⟩, pw⟩, hp, heq⟩
    rw [List.mem_filter] at hp
    rcases hp with ⟨hp, hpos⟩
    have hpos' : 0 < pti := of_decide_eq_true hpos
    simp only [Prod.mk.injEq] at heq
    rcases heq with ⟨⟨rfl, rfl, ⟨rfl, hti⟩, rfl⟩, rfl⟩
    have : pti = ti + 1 := by omega
    rw [← this]
    exact hp
  · intro h
    refine ⟨((k, v, (tOuter, ti + 1), q), w), ?_, rfl⟩
    rw [List.mem_filter]
    exact ⟨h, by rw [decide_eq_true_eq]; omega⟩

lemma mustRounds_zero_or_one {A : Type} (I : MColl A) (needs : Nat → MColl A)
    (i : Nat) (a : A) :
    mustRounds I needs i a = 0 ∨ mustRounds I needs i a = 1 := by
  cases i with
  | zero => exact Or.inl rfl
  | succ i =>
    rw [mustRounds]
    unfold threshold
    by_cases hc : 0 < monotonicAdd (mustRounds I needs i) (semijoin (needs i) I) a
    · rw [if_pos hc]
      exact Or.inr rfl
    · rw [if_neg hc]
      exact Or.inl rfl

/-- C3: at every correction round (for the per-epoch round semantics of the
correction loop, with the current epoch's accumulated input `I` and arbitrary
accumulated needs streams), every record with positive multiplicity in the
`must` accumulator is present in the actual input collection `I`: the
semijoin against `I` performed before each `add` drops demands for absent
records. -/
theorem must_subset_input {A : Type} (I : MColl A) (needs : Nat → MColl A)
    (hI : ∀ a, 0 ≤ I a) (i : Nat) (a : A)
    (h : 0 < mustRounds I needs i a) : 0 < I a := by
  induction i with
  | zero => exact absurd h (by rw [mustRounds]; norm_num)
  | succ i ih =>
    rw [mustRounds] at h
    unfold threshold at h
    by_cases hc : 0 < monotonicAdd (mustRounds I needs i) (semijoin (needs i) I) a
    · unfold monotonicAdd semijoin at hc
      by_cases hI0 : I a = 0
      · rw [hI0, mul_zero, add_zero] at hc
        exact ih hc
      · exact lt_of_le_of_ne (hI a) (Ne.symm hI0)
    · rw [if_neg hc] at h
      exact absurd h (by norm_num)

/-- Witness for `must_subset_input`: one round, needs and input both holding
record 0 once. -/
theorem must_subset_input_witness :
    (0 : Int) < mustRounds (fun _ : Nat => (1 : Int)) (fun _ _ => 1) 1 0 ∧
    (0 : Int) < (fun _ : Nat => (1 : Int)) 0 :=
  ⟨by decide,
   must_subset_input (fun _ : Nat => (1 : Int)) (fun _ _ => 1)
     (fun _ => by norm_num) 1 0 (by decide)⟩

/-- C4: the destructor of a MonotonicVariable thresholds the accumulated
`current` so that positive multiplicities contribute exactly 1 and
non-positive ones contribute 0; consequently — although `add` concatenates
sources without deduplication — every `must` multiplicity is 0 or 1 at every
round, and within an epoch (the semijoined additions being non-negative) the
`must` accumulator only grows across correction rounds. -/
theorem must_mults_01_and_grows {A : Type} (I : MColl A) (needs : Nat → MColl A)
    (hpos : ∀ i a, 0 ≤ semijoin (needs i) I a) (i : Nat) (a : A) (c : MColl A) :
    threshold c a = (if 0 < c a then 1 else 0) ∧
    (mustRounds I needs i a = 0 ∨ mustRounds I needs i a = 1) ∧
    mustRounds I needs i a ≤ mustRounds I needs (i + 1) a := by
  refine ⟨rfl, mustRounds_zero_or_one I needs i a, ?_⟩
  rcases mustRounds_zero_or_one I needs i a with h0 | h1
  · rw [h0]
    rcases mustRounds_zero_or_one I needs (i + 1) a with h | h <;> simp [h]
  · rw [h1]
    conv_rhs => rw [mustRounds]
    unfold threshold monotonicAdd
    have hlt : 0 < mustRounds I needs i a + semijoin (needs i) I a := by
      rw [h1]
      linarith [hpos i a]
    rw [if_pos hlt]

/-- Witness for `must_mults_01_and_grows` at a one-record universe. -/
theorem must_mults_01_and_grows_witness :
    ((fun _ : Nat => (0 : Int)) 0 = (if (0 : Int) < 0 then 1 else 0) ∧
     (mustRounds (fun _ : Nat => (1 : Int)) (fun _ _ => 1) 1 0 = 0 ∨
      mustRounds (fun _ : Nat => (1 : Int)) (fun _ _ => 1) 1 0 = 1) ∧
     mustRounds (fun _ : Nat => (1 : Int)) (fun _ _ => 1) 1 0 ≤
      mustRounds (fun _ : Nat => (1 : Int)) (fun _ _ => 1) 2 0) := by
  have h := must_mults_01_and_grows (fun _ : Nat => (1 : Int)) (fun _ _ => 1)
    (fun _ _ => by unfold semijoin; norm_num) 1 0 (fun _ => 0)
  refine ⟨?_, h.2.1, h.2.2⟩
  exact h.1

/-- C10: the `lift!` macro first consolidates its input and then emits, for
each record-at-timestamp whose consolidated net weight is nonzero — positive
or negative alike — exactly one output record with weight +1; the sign and
magnitude of the input weight never reach the output, so a net-retracted
record is lifted as a positive presence record for the downstream demand
joins of `leave!` and `min!`. -/
theorem lift_emits_unit_presence {A : Type} [DecidableEq A] (c : Coll A) (a : A) :
    (∀ p ∈ lift c, p.2 = 1) ∧
    ((a, (1 : Int)) ∈ lift c ↔ netWeight c a ≠ 0) ∧
    (lift c).Nodup :=
  ⟨lift_weights, mem_lift, nodup_lift c⟩

/-- The depends accumulator of `X` when a query is posed on `X` alone: a
MonotonicVariable loop in the explanation scope whose only addition is the
query stream (`final.depends.add(&query...)`), iterated with the destructor's
threshold on feedback. -/
def aloneDepIter {A : Type} (q : MColl A) : Nat → MColl A
  | 0 => fun _ => 0
  | n + 1 => threshold (monotonicAdd (aloneDepIter q n) q)

/-- The three depends accumulators of `X.concat(X).except(X)` under a query
on the final output, one loop iteration per step.  Writing `x`, `y1`, `y2`
for the accumulated depends streams of `X`, of `Y1 = X.concat(X)` and of
`Y2 = Y1.except(X)`: the wiring of `Variable::concat` adds `y1`'s stream to
X's accumulator twice (both inputs are X), the wiring of `Variable::except`
adds `y2`'s stream to Y1's accumulator (self) and to X's (the negated other),
and the query is added to Y2's.  Each accumulator's next value is the
destructor's threshold of its current. -/
def compositeDepIter {A : Type} (q : MColl A) : Nat → MColl A × MColl A × MColl A
  | 0 => (fun _ => 0, fun _ => 0, fun _ => 0)
  | n + 1 =>
    (threshold (monotonicAdd (monotonicAdd (monotonicAdd
        (compositeDepIter q n).1 (compositeDepIter q n).2.1)
        (compositeDepIter q n).2.1) (compositeDepIter q n).2.2),
     threshold (monotonicAdd (compositeDepIter q n).2.1 (compositeDepIter q n).2.2),
     threshold (monotonicAdd (compositeDepIter q n).2.2 q))

/-- The Explained Collection `X.concat(X).except(X)`, the same `X` as all
three inputs. -/
def concatExceptSelf {K V T : Type} (x : Variable K V T)
    (rd1 rd2 : DStream K V T) : Variable K V T :=
  (Variable.except (Variable.concat x x rd1).1 x rd2).1

lemma threshold_zero_or_one {A : Type} (c : MColl A) (a : A) :
    threshold c a = 0 ∨ threshold c a = 1 := by
  unfold threshold
  by_cases h : 0 < c a
  · rw [if_pos h]; exact Or.inr rfl
  · rw [if_neg h]; exact Or.inl rfl

lemma aloneDepIter_stable {A : Type} (q : MColl A) :
    ∀ n a, aloneDepIter q (n + 1) a = threshold q a := by
  intro n
  induction n with
  | zero =>
    intro a
    show threshold (monotonicAdd (fun _ => 0) q) a = threshold q a
    unfold threshold monotonicAdd
    rw [zero_add]
  | succ n ih =>
    intro a
    show threshold (monotonicAdd (aloneDepIter q (n + 1)) q) a = threshold q a
    unfold threshold monotonicAdd
    rw [ih a]
    unfold threshold
    by_cases h : 0 < q a
    · rw [if_pos h, if_pos (by linarith)]
    · rw [if_neg h, if_neg (by linarith)]

lemma compositeDepIter_y2 {A : Type} (q : MColl A) :
    ∀ n a, (compositeDepIter q (n + 1)).2.2 a = threshold q a := by
  intro n
  induction n with
  | zero =>
    intro a
    show threshold (monotonicAdd (fun _ => 0) q) a = threshold q a
    unfold threshold monotonicAdd
    rw [zero_add]
  | succ n ih =>
    intro a
    show threshold (monotonicAdd (compositeDepIter q (n + 1)).2.2 q) a = threshold q a
    unfold threshold monotonicAdd
    rw [ih a]
    unfold threshold
    by_cases h : 0 < q a
    · rw [if_pos h, if_pos (by linarith)]
    · rw [if_neg h, if_neg (by linarith)]

lemma compositeDepIter_y1_one {A : Type} (q : MColl A) (a : A) :
    (compositeDepIter q 1).2.1 a = 0 := by
  show threshold (monotonicAdd (fun _ => 0) (fun _ => 0)) a = 0
  unfold threshold monotonicAdd
  norm_num

lemma compositeDepIter_y1 {A : Type} (q : MColl A) :
    ∀ n a, (compositeDepIter q (n + 2)).2.1 a = threshold q a := by
  intro n
  induction n with
  | zero =>
    intro a
    show threshold (monotonicAdd (compositeDepIter q 1).2.1 (compositeDepIter q 1).2.2) a =
      threshold q a
    unfold threshold monotonicAdd
    rw [compositeDepIter_y1_one q a, compositeDepIter_y2 q 0 a, zero_add]
    unfold threshold
    by_cases h : 0 < q a
    · rw [if_pos h]
      norm_num
    · rw [if_neg h]
      norm_num
  | succ n ih =>
    intro a
    show threshold (monotonicAdd (compositeDepIter q (n + 2)).2.1
        (compositeDepIter q (n + 2)).2.2) a = threshold q a
    unfold threshold monotonicAdd
    rw [ih a, compositeDepIter_y2 q (n + 1) a]
    unfold threshold
    by_cases h : 0 < q a
    · rw [if_pos h]
      norm_num
    · rw [if_neg h]
      norm_num

lemma compositeDepIter_x {A : Type} (q : MColl A) :
    ∀ n a, (compositeDepIter q (n + 2)).1 a = threshold q a := by
  intro n
  induction n with
  | zero =>
    intro a
    show threshold (monotonicAdd (monotonicAdd (monotonicAdd
        (compositeDepIter q 1).1 (compositeDepIter q 1).2.1)
        (compositeDepIter q 1).2.1) (compositeDepIter q 1).2.2) a = threshold q a
    have hx1 : (compositeDepIter q 1).1 a = 0 := by
      show threshold (monotonicAdd (monotonicAdd (monotonicAdd
          (fun _ => 0) (fun _ => 0)) (fun _ => 0)) (fun _ => 0)) a = 0
      unfold threshold monotonicAdd
      norm_num
    unfold threshold monotonicAdd
    rw [hx1, compositeDepIter_y1_one q a, compositeDepIter_y2 q 0 a]
    unfold threshold
    by_cases h : 0 < q a
    · rw [if_pos h]
      norm_num
    · rw [if_neg h]
      norm_num
  | succ n ih =>
    intro a
    show threshold (monotonicAdd (monotonicAdd (monotonicAdd
        (compositeDepIter q (n + 2)).1 (compositeDepIter q (n + 2)).2.1)
        (compositeDepIter q (n + 2)).2.1) (compositeDepIter q (n + 2)).2.2) a =
      threshold q a
    unfold threshold monotonicAdd
    rw [ih a, compositeDepIter_y1 q n a, compositeDepIter_y2 q (n + 1) a]
    unfold threshold
    by_cases h : 0 < q a
    · rw [if_pos h]
      norm_num
    · rw [if_neg h]
      norm_num

/-- C6: `X.concat(X).except(X)` has stream and working multiplicity-equal to
`X`'s, and after any query the depends accumulator of `X` — from the second
loop iteration on, that is at and beyond the fixed point of the demand
accumulators — coincides with the one obtained when the same query is posed
on `X` alone; hence the `must` set computed from the needs stream by the
correction round's semijoin-and-threshold is identical too. -/
theorem concat_except_self_identity {K V T A : Type}
    (x : Variable K V T) (rd1 rd2 : DStream K V T) (r : K × V)
    (q I : MColl A) (n : Nat) (hn : 2 ≤ n) (a : A) :
    (concatExceptSelf x rd1 rd2).stream r = x.stream r ∧
    (concatExceptSelf x rd1 rd2).working r = x.working r ∧
    (compositeDepIter q n).1 a = aloneDepIter q n a ∧
    threshold (semijoin ((compositeDepIter q n).1) I) a =
      threshold (semijoin (aloneDepIter q n) I) a := by
  obtain ⟨m, rfl⟩ : ∃ m, n = m + 2 := ⟨n - 2, by omega⟩
  have hdep : (compositeDepIter q (m + 2)).1 a = aloneDepIter q (m + 2) a := by
    rw [compositeDepIter_x q m a, aloneDepIter_stable q (m + 1) a]
  refine ⟨?_, ?_, hdep, ?_⟩
  · show x.stream r + x.stream r + -x.stream r = x.stream r
    ring
  · show x.working r + x.working r + -x.working r = x.working r
    ring
  · unfold threshold semijoin
    rw [hdep]

/-- Witness for `concat_except_self_identity` at a one-record universe,
`n = 2`. -/
theorem concat_except_self_identity_witness :
    (2 ≤ 2) ∧
    ((concatExceptSelf (⟨fun _ => 1, fun _ => 1, []⟩ : Variable Nat Nat Nat)
        [] []).stream (0, 0) =
      (⟨fun _ => 1, fun _ => 1, []⟩ : Variable Nat Nat Nat).stream (0, 0) ∧
     (concatExceptSelf (⟨fun _ => 1, fun _ => 1, []⟩ : Variable Nat Nat Nat)
        [] []).working (0, 0) =
      (⟨fun _ => 1, fun _ => 1, []⟩ : Variable Nat Nat Nat).working (0, 0) ∧
     (compositeDepIter (fun _ : Nat => (1 : Int)) 2).1 0 =
      aloneDepIter (fun _ : Nat => (1 : Int)) 2 0 ∧
     threshold (semijoin ((compositeDepIter (fun _ : Nat => (1 : Int)) 2).1)
        (fun _ => 1)) 0 =
      threshold (semijoin (aloneDepIter (fun _ : Nat => (1 : Int)) 2)
        (fun _ => 1)) 0) :=
  ⟨by norm_num,
   concat_except_self_identity (⟨fun _ => 1, fun _ => 1, []⟩ : Variable Nat Nat Nat)
     [] [] (0, 0) (fun _ => 1) (fun _ => 1) 2 (by norm_num) 0⟩

/-- Witness for `grouped_min_depends_exact`: one history record, one demand,
all coordinates 0 and extractor the identity. -/
theorem grouped_min_depends_exact_witness :
    ((0, 0, 0, 0), (1 : Int)) ∈
        grouped_min_depends (fun v : Nat => v)
          ([(((0, 0), 0), 1)] : Coll ((Nat × Nat) × Nat)) [((0, 0, 0, 0), 1)] ↔
      ((0 : Nat) = 0 ∧ (0 : Nat) = 0 ∧ (1 : Int) = 1 ∧
        netWeight ([(((0, 0), 0), 1)] : Coll ((Nat × Nat) × Nat)) ((0, 0), 0) ≠ 0 ∧
        (0 : Nat) ≤ 0 ∧ (fun v : Nat => v) 0 ≤ 0) :=
  grouped_min_depends_exact (fun v : Nat => v)
    ([(((0, 0), 0), 1)] : Coll ((Nat × Nat) × Nat)) 0 0 0 0 0 0 0 0 1

/-- Witness for `enter_strips_inner_time` on a one-demand stream. -/
theorem enter_strips_inner_time_witness :
    ((((0, 0, 0, 0), 1) ∈ enter_depends
        ([((0, 0, (0, 5), 0), 1)] : DStream Nat Nat (Nat × Nat)) ↔
      ∃ tInner, ((0, 0, (0, tInner), 0), (1 : Int)) ∈
        ([((0, 0, (0, 5), 0), 1)] : DStream Nat Nat (Nat × Nat))) ∧
     (((0, 0, 0, 0), 1) ∈ enter_at_depends
        ([((0, 0, (0, 5), 0), 1)] : DStream Nat Nat (Nat × Nat)) ↔
      ∃ tInner, ((0, 0, (0, tInner), 0), (1 : Int)) ∈
        ([((0, 0, (0, 5), 0), 1)] : DStream Nat Nat (Nat × Nat)))) :=
  enter_strips_inner_time ([((0, 0, (0, 5), 0), 1)] : DStream Nat Nat (Nat × Nat))
    0 0 0 0 1

/-- Witness for `join_u_backprop_exact` on a one-demand stream. -/
theorem join_u_backprop_exact_witness :
    ((((0, 1, 0, 0), 1) ∈ join_u_depends_self
        ([((0, (1, 2), 0, 0), 1)] : DStream Nat (Nat × Nat) Nat) ↔
      ∃ u2, ((0, (1, u2), 0, 0), (1 : Int)) ∈
        ([((0, (1, 2), 0, 0), 1)] : DStream Nat (Nat × Nat) Nat)) ∧
     (((0, 2, 0, 0), 1) ∈ join_u_depends_other
        ([((0, (1, 2), 0, 0), 1)] : DStream Nat (Nat × Nat) Nat) ↔
      ∃ u1, ((0, (u1, 2), 0, 0), (1 : Int)) ∈
        ([((0, (1, 2), 0, 0), 1)] : DStream Nat (Nat × Nat) Nat)) ∧
     (((0, (1, 2), 0, 0), (1 : Int)) ∈
        ([((0, (1, 2), 0, 0), 1)] : DStream Nat (Nat × Nat) Nat) →
      ((0, 1, 0, 0), (1 : Int)) ∈ join_u_depends_self
        ([((0, (1, 2), 0, 0), 1)] : DStream Nat (Nat × Nat) Nat) ∧
      ((0, 2, 0, 0), (1 : Int)) ∈ join_u_depends_other
        ([((0, (1, 2), 0, 0), 1)] : DStream Nat (Nat × Nat) Nat))) :=
  join_u_backprop_exact ([((0, (1, 2), 0, 0), 1)] : DStream Nat (Nat × Nat) Nat)
    0 1 2 0 0 1

/-- Witness for `feedback_set_decrements` on a one-demand stream at inner
time 3. -/
theorem feedback_set_decrements_witness :
    (((0, 0, (0, 2), 0), 1) ∈ feedback_set_depends
        ([((0, 0, (0, 3), 0), 1)] : DStream Nat Nat (Nat × Nat)) ↔
      ((0, 0, (0, 2 + 1), 0), (1 : Int)) ∈
        ([((0, 0, (0, 3), 0), 1)] : DStream Nat Nat (Nat × Nat))) :=
  feedback_set_decrements ([((0, 0, (0, 3), 0), 1)] : DStream Nat Nat (Nat × Nat))
    0 0 0 2 0 1

/-- Witness for `concat_except_forward_verbatim` on concrete one-element
variables and a one-demand stream. -/
theorem concat_except_forward_verbatim_witness :
    ((Variable.concat (⟨fun _ => 1, fun _ => 1, []⟩ : Variable Nat Nat Nat)
        ⟨fun _ => 2, fun _ => 2, []⟩ [((0, 0, 0, 0), 1)]).2.1.dependsAdds =
      [] ++ [[((0, 0, 0, 0), 1)]] ∧
     (Variable.concat (⟨fun _ => 1, fun _ => 1, []⟩ : Variable Nat Nat Nat)
        ⟨fun _ => 2, fun _ => 2, []⟩ [((0, 0, 0, 0), 1)]).2.2.dependsAdds =
      [] ++ [[((0, 0, 0, 0), 1)]] ∧
     (Variable.except (⟨fun _ => 1, fun _ => 1, []⟩ : Variable Nat Nat Nat)
        ⟨fun _ => 2, fun _ => 2, []⟩ [((0, 0, 0, 0), 1)]).2.1.dependsAdds =
      [] ++ [[((0, 0, 0, 0), 1)]] ∧
     (Variable.except (⟨fun _ => 1, fun _ => 1, []⟩ : Variable Nat Nat Nat)
        ⟨fun _ => 2, fun _ => 2, []⟩ [((0, 0, 0, 0), 1)]).2.2.dependsAdds =
      [] ++ [[((0, 0, 0, 0), 1)]]) :=
  concat_except_forward_verbatim (⟨fun _ => 1, fun _ => 1, []⟩ : Variable Nat Nat Nat)
    ⟨fun _ => 2, fun _ => 2, []⟩ [((0, 0, 0, 0), 1)]

/-- Witness for `lift_emits_unit_presence`: a record inserted twice and
retracted once still has nonzero net weight. -/
theorem lift_emits_unit_presence_witness :
    (∀ p ∈ lift ([((0 : Nat), 2), (0, -1)] : Coll Nat), p.2 = 1) ∧
    (((0 : Nat), (1 : Int)) ∈ lift ([((0 : Nat), 2), (0, -1)] : Coll Nat) ↔
      netWeight ([((0 : Nat), 2), (0, -1)] : Coll Nat) 0 ≠ 0) ∧
    (lift ([((0 : Nat), 2), (0, -1)] : Coll Nat)).Nodup :=
  lift_emits_unit_presence ([((0 : Nat), 2), (0, -1)] : Coll Nat) 0
